import Mathlib

/-!
Shallow embedding of the `methoddispatch` library
(`methoddispatch/_methoddispatch.py`, with `_find_impl` / `_compose_mro`
taken from `methoddispatch/methoddispatch2.py` where the repository carries
its own copy of the functools resolution scan).

Python types are modelled as natural-number identifiers.  The ambient
Python type system (nominal MROs, `issubclass`, `__abstractmethods__`,
and the composed precedence order produced by `_compose_mro`) is an
opaque parameter `TypeSystem`: no claim below depends on the internals of
the C3 linearizer, only on how the resolver, registries, caches and the
class-construction fixup consume it.

Mutable Python objects (`singledispatch` instances) live in a `World`
heap indexed by allocation order, so that aliasing-sensitive claims
(subclass independence, instance isolation) are about genuine sharing,
not about pure values.
-/

set_option autoImplicit false

/-- Python runtime types, by identity. -/
abbrev Ty := Nat

/-- What a second-parameter annotation resolves to: a class, or some
non-class value (string, parameterized generic, ...). -/
inductive Ann where
  | cls (t : Ty)
  | nonClass
deriving DecidableEq

/-- A Python function object as the library sees it: an identity, its
`__name__`, its positional arity, the annotation of its second
positional parameter (if any), and the `_overloads` tag list that
`register` appends to (absent in Python iff the list is empty). -/
structure Handler where
  hid : Nat
  hname : String
  arity : Nat
  annot : Option Ann
  overloads : List (String × Option Ty)
deriving DecidableEq

/-- The Python exception classes the modelled code can raise. -/
inductive PyErr where
  | runtimeError
  | keyError
  | typeError
  | assertionError
  | attributeError
  | valueError
  | indexError
deriving DecidableEq

/-- `d[k]` for an insertion-ordered Python dict modelled as an
association list. -/
def dictGet {κ α : Type} [BEq κ] (d : List (κ × α)) (k : κ) : Option α :=
  (d.find? (fun p => p.1 == k)).map (fun p => p.2)

/-- `d[k] = v` for an insertion-ordered Python dict: an existing key
keeps its position, a new key is appended. -/
def dictInsert {κ α : Type} [BEq κ] (d : List (κ × α)) (k : κ) (v : α) :
    List (κ × α) :=
  match d with
  | [] => [(k, v)]
  | (k0, v0) :: rest =>
      if k0 == k then (k, v) :: rest else (k0, v0) :: dictInsert rest k v

/-- `d.update(entries)` for Python dicts. -/
def dictUpdate {κ α : Type} [BEq κ] (d : List (κ × α))
    (entries : List (κ × α)) : List (κ × α) :=
  entries.foldl (fun acc p => dictInsert acc p.1 p.2) d

/-- The ambient Python type system, treated as an oracle:
`composeMro cls keys` is `_compose_mro(cls, registry.keys())`,
`nominalMro cls` is `cls.__mro__`, `issub` is `issubclass`,
`isAbstract cls` is `hasattr(cls, '__abstractmethods__')`, and
`objectTy` is the universal base `object`. -/
structure TypeSystem where
  composeMro : Ty → List Ty → List Ty
  nominalMro : Ty → List Ty
  issub : Ty → Ty → Bool
  isAbstract : Ty → Bool
  objectTy : Ty

/-- The scanning loop of `_find_impl` (methoddispatch2.py lines 153-165):
walk the composed order with the current `match`; once a match is held,
the very next entry either triggers the ambiguity `RuntimeError` or the
loop breaks and the match stands. -/
def find_scan (registered : Ty → Bool) (inNominal : Ty → Bool)
    (issub : Ty → Ty → Bool) :
    List Ty → Option Ty → Except PyErr (Option Ty)
  | [], acc => .ok acc
  | t :: _, some m =>
      if registered t && !inNominal t && !inNominal m && !issub m t then
        .error .runtimeError
      else
        .ok (some m)
  | t :: rest, none =>
      find_scan registered inNominal issub rest
        (if registered t then some t else none)

/-- `_find_impl(cls, registry)`: compose the precedence order, scan it,
and return `registry.get(match)`. -/
def find_impl (ts : TypeSystem) (registry : List (Ty × Handler))
    (cls : Ty) : Except PyErr (Option Handler) :=
  let mro := ts.composeMro cls (registry.map Prod.fst)
  match find_scan (fun t => (dictGet registry t).isSome)
      (fun t => (ts.nominalMro cls).contains t) ts.issub mro none with
  | .error e => .error e
  | .ok m => .ok (m.bind (fun t => dictGet registry t))

/-- A fresh, uncached resolution over a registry: a direct registry hit,
else `_find_impl` (this is the cache-miss path of `dispatch`). -/
def resolve0 (ts : TypeSystem) (registry : List (Ty × Handler))
    (cls : Ty) : Except PyErr (Option Handler) :=
  match dictGet registry cls with
  | some impl => .ok (some impl)
  | none => find_impl ts registry cls

/-- One `singledispatch` object (`_methoddispatch.py` lines 17-113):
its `_registry`, its default `func`, its `dispatch_cache` (a cache entry
stores whatever `dispatch` computed, which may be `None` when
`_find_impl` found no match) and its `cache_token`.  `update_wrapper`
makes the object's `__name__` equal to `func.__name__`. -/
structure SDObj where
  registry : List (Ty × Handler)
  func : Handler
  cache : List (Ty × Option Handler)
  cacheToken : Option Nat
deriving DecidableEq

/-- `singledispatch.__init__`: registry holds `object -> func`, empty
cache, no cache token. -/
def SDObj.init (ts : TypeSystem) (func : Handler) : SDObj :=
  { registry := [(ts.objectTy, func)], func := func, cache := [],
    cacheToken := none }

/-- The cache-token validation prologue of `dispatch` (lines 42-46):
when a token is stored and differs from the current global token, clear
the cache and refresh the stored token. -/
def SDObj.token_step (g : Nat) (o : SDObj) : SDObj :=
  match o.cacheToken with
  | some tok =>
      if tok == g then o else { o with cache := [], cacheToken := some g }
  | none => o

/-- The lookup body of `dispatch` (lines 47-55): cache hit, then direct
registry hit, then `_find_impl`; successful results are cached, the
ambiguity error is not. -/
def SDObj.dispatch_lookup (ts : TypeSystem) (o1 : SDObj) (cls : Ty) :
    Except PyErr (Option Handler) × SDObj :=
  match dictGet o1.cache cls with
  | some impl => (.ok impl, o1)
  | none =>
      match dictGet o1.registry cls with
      | some impl =>
          (.ok (some impl),
           { o1 with cache := dictInsert o1.cache cls (some impl) })
      | none =>
          match find_impl ts o1.registry cls with
          | .ok impl =>
              (.ok impl, { o1 with cache := dictInsert o1.cache cls impl })
          | .error e => (.error e, o1)

/-- `singledispatch.dispatch(cls)`, with `g` the current value of
`abc.get_cache_token()`: token validation followed by the lookup. -/
def SDObj.dispatch (ts : TypeSystem) (g : Nat) (o : SDObj) (cls : Ty) :
    Except PyErr (Option Handler) × SDObj :=
  SDObj.dispatch_lookup ts (o.token_step g) cls

/-- `singledispatch.add_overload(cls, func)` with both arguments given:
insert into the registry, set the cache token off the global token if
this is the first abstract key, clear the cache. -/
def SDObj.add_overload (ts : TypeSystem) (g : Nat) (o : SDObj) (cls : Ty)
    (f : Handler) : SDObj :=
  { o with
    registry := dictInsert o.registry cls f,
    cacheToken :=
      if o.cacheToken == none && ts.isAbstract cls then some g
      else o.cacheToken,
    cache := [] }

/-- `_get_class_from_annotation(func)`: assert at least two positional
parameters, require an annotation on the second, and require that it be
a class. -/
def get_class_from_annot (f : Handler) : Except PyErr Ty :=
  if f.arity < 2 then .error .assertionError
  else
    match f.annot with
    | none => .error .typeError
    | some (.cls t) => .ok t
    | some .nonClass => .error .assertionError

/-- `add_overload(func)` with the type argument omitted: infer the class
from the annotation, then register. -/
def SDObj.add_overload_infer (ts : TypeSystem) (g : Nat) (o : SDObj)
    (f : Handler) : Except PyErr SDObj :=
  match get_class_from_annot f with
  | .error e => .error e
  | .ok cls => .ok (o.add_overload ts g cls f)

/-- `singledispatch.copy()`: a brand-new object built from the same
default body (`singledispatch(self.func)`), whose fresh registry is then
`update`d with the entries of the source registry.  Note that the cache
token is *not* carried over. -/
def SDObj.copy (ts : TypeSystem) (o : SDObj) : SDObj :=
  let base := SDObj.init ts o.func
  { base with registry := dictUpdate base.registry o.registry }

/-- `singledispatch.get_registered_types()`: all registry keys except
`object`. -/
def SDObj.get_registered_types (ts : TypeSystem) (o : SDObj) : List Ty :=
  (o.registry.map Prod.fst).filter (fun t => !(t == ts.objectTy))

/-- `singledispatch.register(cls, func)` with both arguments given: the
registry is untouched; the handler gets a `(generic __name__, cls)` tag
appended to its `_overloads` list and is returned. -/
def sd_register_tag (o : SDObj) (cls : Ty) (f : Handler) : Handler :=
  { f with overloads := f.overloads ++ [(o.func.hname, some cls)] }

/-- `singledispatch.register(func)` with the type argument omitted:
infer the class from the annotation, then tag. -/
def sd_register_tag_infer (o : SDObj) (f : Handler) : Except PyErr Handler :=
  match get_class_from_annot f with
  | .error e => .error e
  | .ok cls => .ok (sd_register_tag o cls f)

/-- The heap of live `singledispatch` objects, indexed by allocation
order. -/
structure World where
  objs : List SDObj
deriving DecidableEq

/-- Mutate object `i` by `add_overload`. -/
def World.addOverload (ts : TypeSystem) (g : Nat) (w : World) (i : Nat)
    (cls : Ty) (f : Handler) : World :=
  match w.objs[i]? with
  | some o => ⟨w.objs.set i (o.add_overload ts g cls f)⟩
  | none => w

/-- Call `dispatch` on object `i`, returning the result and the heap
with that object's updated cache. -/
def World.dispatchObj (ts : TypeSystem) (g : Nat) (w : World) (i : Nat)
    (cls : Ty) : Except PyErr (Option Handler) × World :=
  match w.objs[i]? with
  | some o =>
      let r := o.dispatch ts g cls
      (r.1, ⟨w.objs.set i r.2⟩)
  | none => (.error .attributeError, w)

/-- `obj_i.copy()`: allocate a clone of object `i` at a fresh index
(the current heap size) and return that index. -/
def World.copyObj (ts : TypeSystem) (w : World) (i : Nat) : Nat × World :=
  (w.objs.length,
   match w.objs[i]? with
   | some o => ⟨w.objs ++ [o.copy ts]⟩
   | none => w)

/-- `BoundSDMethod.register(cls, func)`: on first instance registration
(`_instance_sd is None`) clone the class-level object into a private
per-instance slot, then `add_overload` on the private clone.  Returns
the instance's (new) overlay index and the heap. -/
def bound_register (ts : TypeSystem) (g : Nat) (classSd : Nat)
    (overlay : Option Nat) (cls : Ty) (f : Handler) (w : World) :
    Option Nat × World :=
  match overlay with
  | some j => (some j, w.addOverload ts g j cls f)
  | none =>
      let r := w.copyObj ts classSd
      (some r.1, r.2.addOverload ts g r.1 cls f)

/-- `BoundSDMethod.dispatch(cls)`: the private overlay if present, else
the class-level object. -/
def bound_dispatch (ts : TypeSystem) (g : Nat) (classSd : Nat)
    (overlay : Option Nat) (cls : Ty) (w : World) :
    Except PyErr (Option Handler) × World :=
  w.dispatchObj ts g (overlay.getD classSd) cls

/-- The three shapes `singledispatch.__get__` can produce. -/
inductive SDView where
  | plainV (i : Nat)
  | boundV (i : Nat) (overlay : Option Nat)
  | unboundV (i : Nat)
deriving DecidableEq

/-- `singledispatch.__get__(instance, owner)` on object `i`.  An
instance is given together with the overlay slot in its `__dict__`;
`ownerIsSD` is `issubclass(owner, SingleDispatch)` when an owner is
given. -/
def sd_get (i : Nat) (inst : Option (Option Nat))
    (ownerIsSD : Option Bool) : Except PyErr SDView :=
  match ownerIsSD with
  | some false => .error .valueError
  | _ =>
      match inst with
      | some ov => .ok (.boundV i ov)
      | none =>
          match ownerIsSD with
          | some _ => .ok (.unboundV i)
          | none => .ok (.plainV i)

/-- Calling a view with positional arguments (only their runtime types
matter for resolution): `singledispatch.__call__` and
`BoundSDMethod.__call__` dispatch on `args[0].__class__`,
`UnboundSDMethod.__call__` dispatches on `args[1].__class__`. -/
def view_call (ts : TypeSystem) (g : Nat) (v : SDView) (argTys : List Ty)
    (w : World) : Except PyErr (Option Handler) × World :=
  match v with
  | .plainV i =>
      match argTys[0]? with
      | some t => w.dispatchObj ts g i t
      | none => (.error .indexError, w)
  | .boundV i ov =>
      match argTys[0]? with
      | some t => w.dispatchObj ts g (ov.getD i) t
      | none => (.error .indexError, w)
  | .unboundV i =>
      match argTys[1]? with
      | some t => w.dispatchObj ts g i t
      | none => (.error .indexError, w)

/-- `Class.generic_fn(x, a, ...)`: class-level attribute access reaches
`__get__(None, Class)` on the `singledispatch` object stored in
`Class.__dict__`, then the resulting unbound method is called with the
instance as the first positional argument.  `instTy` and `instOverlay`
are the runtime type and the per-instance overlay slot of `x`. -/
def class_level_call (ts : TypeSystem) (g : Nat) (classSd : Nat)
    (instTy : Ty) (instOverlay : Option Nat) (restTys : List Ty)
    (w : World) : Except PyErr (Option Handler) × World :=
  match sd_get classSd none (some true) with
  | .ok v => view_call ts g v (instTy :: restTys) w
  | .error e => (.error e, w)

/-- A value sitting in a class `__dict__`: a `singledispatch` object (by
heap index), a plain function object, or a non-callable. -/
inductive AttrVal where
  | sd (i : Nat)
  | fn (h : Handler)
  | plain
deriving DecidableEq

/-- First loop of `_fixup_class_attributes` (lines 210-220): walk the
`singledispatch` attributes of the SingleDispatch bases in MRO order
(here already flattened into one entry list); a name also present in
the new class's `__dict__` raises `RuntimeError`, otherwise the generic
is cloned into the class dict and remembered in `generics`. -/
def fixup_patch (ts : TypeSystem) :
    List (String × AttrVal) → List String → List (String × AttrVal) →
    List Nat → World →
    Except PyErr (List (String × AttrVal) × List Nat × World)
  | [], _, dict, gens, w => .ok (dict, gens, w)
  | (name, v) :: rest, patched, dict, gens, w =>
      match v with
      | .sd i =>
          if patched.contains name then
            fixup_patch ts rest patched dict gens w
          else if (dictGet dict name).isSome then .error .runtimeError
          else
            let r := w.copyObj ts i
            fixup_patch ts rest (name :: patched)
              (dict ++ [(name, .sd r.1)]) (gens ++ [r.1]) r.2
      | _ => fixup_patch ts rest patched dict gens w

/-- Processing one handler's `_overloads` tags (lines 224-230): look the
generic name up in the (already patched) class dict and `add_overload`
the handler on it, inferring the class from the annotation when the tag
carries `None`. -/
def apply_tags (ts : TypeSystem) (g : Nat) (dict : List (String × AttrVal))
    (h : Handler) : List (String × Option Ty) → World → Except PyErr World
  | [], w => .ok w
  | (gname, cls?) :: rest, w =>
      match dictGet dict gname with
      | some (.sd i) =>
          match cls? with
          | some c => apply_tags ts g dict h rest (w.addOverload ts g i c h)
          | none =>
              match get_class_from_annot h with
              | .ok c => apply_tags ts g dict h rest (w.addOverload ts g i c h)
              | .error e => .error e
      | some _ => .error .attributeError
      | none => .error .keyError

/-- The override-by-name branch (lines 231-236): for each cloned
generic, scan its registry in insertion order and re-register the class
body callable under the first type whose handler has the matching
`__name__`. -/
def apply_overrides (ts : TypeSystem) (g : Nat) (name : String)
    (h : Handler) : List Nat → World → World
  | [], w => w
  | i :: rest, w =>
      let w1 :=
        match w.objs[i]? with
        | some o =>
            match o.registry.find? (fun p => p.2.hname == name) with
            | some p => w.addOverload ts g i p.1 h
            | none => w
        | none => w
      apply_overrides ts g name h rest w1

/-- Second loop of `_fixup_class_attributes` (lines 221-236): iterate
the live class dict; skip non-callables and `singledispatch` objects;
apply `_overloads` tags when present, else try override-by-name against
every cloned generic. -/
def fixup_attrs (ts : TypeSystem) (g : Nat) (dict : List (String × AttrVal))
    (gens : List Nat) : List (String × AttrVal) → World → Except PyErr World
  | [], w => .ok w
  | (name, v) :: rest, w =>
      match v with
      | .plain => fixup_attrs ts g dict gens rest w
      | .sd _ => fixup_attrs ts g dict gens rest w
      | .fn h =>
          if h.overloads.isEmpty then
            fixup_attrs ts g dict gens rest (apply_overrides ts g name h gens w)
          else
            match apply_tags ts g dict h h.overloads w with
            | .ok w1 => fixup_attrs ts g dict gens rest w1
            | .error e => .error e

/-- `_fixup_class_attributes(cls)` (lines 206-236): `attrs` is the new
class body's `__dict__` in declaration order, `baseEntries` the
concatenated `__dict__` entries of the SingleDispatch bases in MRO
order.  Returns the final class dict (body attributes followed by the
patched clones), the clone indices, and the heap. -/
def fixup_class (ts : TypeSystem) (g : Nat) (attrs : List (String × AttrVal))
    (baseEntries : List (String × AttrVal)) (w : World) :
    Except PyErr (List (String × AttrVal) × List Nat × World) :=
  match fixup_patch ts baseEntries [] attrs [] w with
  | .error e => .error e
  | .ok (dict, gens, w1) =>
      match fixup_attrs ts g dict gens dict w1 with
      | .error e => .error e
      | .ok w2 => .ok (dict, gens, w2)

/-- `singledispatch.register` looked up on a heap object (both the
direct form and `UnboundSDMethod.register`, which merely delegates to
it): the heap is returned untouched, only the tagged handler comes
back. -/
def World.registerOn (w : World) (i : Nat) (cls : Ty) (f : Handler) :
    Handler × World :=
  match w.objs[i]? with
  | some o => (sd_register_tag o cls f, w)
  | none => (f, w)

/-- `get_registered_types()` of heap object `i`. -/
def World.registeredTypes (ts : TypeSystem) (w : World) (i : Nat) :
    Option (List Ty) :=
  (w.objs[i]?).map (SDObj.get_registered_types ts)

/-- The ambiguity pattern of the `_find_impl` scan: the first registered
entry `M` of the composed order is immediately followed by another
registered entry `t`, neither lies on the nominal MRO, and `M` is not a
subclass of `t`. -/
def ambig_pattern (registered inNominal : Ty → Bool)
    (issub : Ty → Ty → Bool) (mro : List Ty) : Prop :=
  ∃ pre M t rest, mro = pre ++ M :: t :: rest
    ∧ (∀ x ∈ pre, registered x = false)
    ∧ registered M = true ∧ registered t = true
    ∧ inNominal M = false ∧ inNominal t = false
    ∧ issub M t = false

/-- Cache coherence: every cached entry agrees with a fresh uncached
resolution over the current registry. -/
def coherent (ts : TypeSystem) (o : SDObj) : Prop :=
  ∀ t v, dictGet o.cache t = some v → resolve0 ts o.registry t = .ok v

/-- The abstract-key invariant of the spec: whenever the registry holds
an abstract marker key, token-based cache invalidation is active. -/
def token_invariant (ts : TypeSystem) (o : SDObj) : Prop :=
  (o.registry.any (fun p => ts.isAbstract p.1)) = true → o.cacheToken ≠ none

/-- A name clash between the new class body and an inherited generic
function: some base `__dict__` entry is a `singledispatch` object whose
name is also declared in the new class body. -/
def name_clash (attrs baseEntries : List (String × AttrVal)) : Prop :=
  ∃ p ∈ baseEntries, (∃ i, p.2 = AttrVal.sd i)
    ∧ (dictGet attrs p.1).isSome = true

/-- Concrete fixture type system: `object` is 0, type 1 is the abstract
marker, everything is a subclass of itself and of `object`, and the
composed precedence order lists the concrete class, then the non-object
registered keys, then `object`. -/
def tsA : TypeSystem :=
  { composeMro := fun cls keys =>
      (cls :: keys.filter (fun t => !(t == cls) && !(t == 0))) ++ [0],
    nominalMro := fun cls => [cls, 0],
    issub := fun a b => a == b || b == 0,
    isAbstract := fun t => t == 1,
    objectTy := 0 }

/-- Fixture handlers. -/
def hDefault : Handler := ⟨100, "foo", 2, none, []⟩

def hInt : Handler := ⟨101, "foo_int", 2, none, []⟩

def hIface : Handler := ⟨102, "foo_iface", 2, none, []⟩

def hAnn : Handler := ⟨103, "foo_ann", 2, some (Ann.cls 3), []⟩

def hBad : Handler := ⟨104, "foo_bad", 2, none, []⟩

/-- Fixture generic function and one-object heap. -/
def sdA : SDObj := SDObj.init tsA hDefault

def wA : World := ⟨[sdA]⟩

/-- Fixture registry with an ambiguous pair of non-nominal keys. -/
def regA : List (Ty × Handler) := [(0, hDefault), (1, hIface), (2, hInt)]

theorem dictGet_nil {κ α : Type} [BEq κ] (k : κ) :
    dictGet ([] : List (κ × α)) k = none := rfl

theorem dictGet_dictInsert_self {κ α : Type} [BEq κ] [LawfulBEq κ]
    (d : List (κ × α)) (k : κ) (v : α) :
    dictGet (dictInsert d k v) k = some v := by
  induction d with
  | nil => simp [dictGet, dictInsert, List.find?]
  | cons p rest ih =>
      obtain ⟨k0, v0⟩ := p
      by_cases h : k0 == k
      · simp [dictGet, dictInsert, h, List.find?]
      · simp only [dictInsert, h, if_false, Bool.false_eq_true]
        simpa [dictGet, List.find?, h] using ih

theorem dictGet_dictInsert_ne {κ α : Type} [BEq κ] [LawfulBEq κ]
    (d : List (κ × α)) (k k2 : κ) (v : α) (h : (k2 == k) = false) :
    dictGet (dictInsert d k v) k2 = dictGet d k2 := by
  have h' : (k == k2) = false := by
    rw [beq_eq_false_iff_ne] at h ⊢
    exact fun e => h e.symm
  induction d with
  | nil => simp [dictGet, dictInsert, List.find?, h']
  | cons p rest ih =>
      obtain ⟨k0, v0⟩ := p
      by_cases h0 : k0 == k
      · have hk : k0 = k := by simpa using h0
        subst hk
        simp [dictGet, dictInsert, h0, List.find?, h']
      · by_cases h2 : k0 == k2
        · simp [dictGet, dictInsert, h0, List.find?, h2]
        · simp only [dictInsert, h0, if_false, Bool.false_eq_true]
          simpa [dictGet, List.find?, h2] using ih

theorem any_key_dictInsert {κ α : Type} [BEq κ] [LawfulBEq κ]
    (d : List (κ × α)) (k : κ) (v : α) (q : κ → Bool) :
    ((dictInsert d k v).any fun p => q p.1)
      = ((d.any fun p => q p.1) || q k) := by
  induction d with
  | nil => simp [dictInsert]
  | cons p rest ih =>
      obtain ⟨k0, v0⟩ := p
      by_cases h : k0 == k
      · have hk : k0 = k := by simpa using h
        rw [hk]
        simp only [dictInsert, beq_self_eq_true, if_true, List.any_cons]
        cases hq : q k <;> simp [hq]
      · simp only [dictInsert, h, if_false, Bool.false_eq_true]
        simp [List.any_cons, ih, Bool.or_assoc]

/-- C7: `Class.generic_fn(x, a, ...)` goes through
`__get__(None, Class)` and the unbound method's `__call__`, so it
resolves against the class's own `singledispatch` object `classSd` —
the instance's runtime type, its per-instance overlay slot (and hence
any subclass registry the instance might otherwise reach) play no part
— dispatching on the runtime type of the first explicit argument after
the instance. -/
theorem c7_class_level_access_uses_class_registry
    (ts : TypeSystem) (g : Nat) (w : World) (classSd : Nat) (instTy : Ty)
    (ov ov2 : Option Nat) (a : Ty) (rest : List Ty) :
    class_level_call ts g classSd instTy ov (a :: rest) w =
      w.dispatchObj ts g classSd a
    ∧ class_level_call ts g classSd instTy ov (a :: rest) w =
      class_level_call ts g classSd instTy ov2 (a :: rest) w := by
  constructor
  · simp only [class_level_call, sd_get, view_call,
      List.getElem?_cons_succ, List.getElem?_cons_zero]
  · rfl

/-- C6 (amended): construction and `add_overload` preserve the
abstract-key/cache-token invariant, but `copy` does not — the clone's
stored cache token is always `None`, even when the copied registry
contains abstract marker keys. -/
theorem c6_token_invariant_init_add (ts : TypeSystem) (g : Nat)
    (f h2 : Handler) (cls : Ty) (o : SDObj)
    (hobj : ts.isAbstract ts.objectTy = false) :
    token_invariant ts (SDObj.init ts f)
    ∧ (token_invariant ts o →
        token_invariant ts (o.add_overload ts g cls h2))
    ∧ (o.copy ts).cacheToken = none := by
  refine ⟨?_, ?_, rfl⟩
  · intro habs
    simp [SDObj.init, hobj] at habs
  · intro hinv habs
    simp only [SDObj.add_overload, any_key_dictInsert] at habs ⊢
    by_cases hc : ts.isAbstract cls
    · rcases ht : o.cacheToken with _ | tok
      · simp [ht, hc]
      · simp [ht, hc]
    · have habs2 : (o.registry.any fun p => ts.isAbstract p.1) = true := by
        simpa [hc] using habs
      have := hinv habs2
      simpa [hc] using this

/-- C6 (counterexample): a registry holding the abstract key 1 satisfies
the invariant after `add_overload` set its token, but its `copy` still
holds key 1 while its token is back to `None` — `copy` does not preserve
the invariant. -/
theorem c6_copy_drops_cache_token :
    token_invariant tsA ((SDObj.init tsA hDefault).add_overload tsA 7 1 hIface)
    ∧ ¬ token_invariant tsA
        (((SDObj.init tsA hDefault).add_overload tsA 7 1 hIface).copy tsA) := by
  constructor
  · intro _
    simp [SDObj.add_overload, SDObj.init, tsA]
  · intro hinv
    exact hinv (by decide) (by decide)

/-- C6 (witness for the amended theorem at concrete inputs). -/
theorem c6_witness :
    token_invariant tsA (SDObj.init tsA hDefault)
    ∧ (sdA.copy tsA).cacheToken = none :=
  ⟨(c6_token_invariant_init_add tsA 0 hDefault hInt 2 sdA (by decide)).1,
   (c6_token_invariant_init_add tsA 0 hDefault hInt 2 sdA (by decide)).2.2⟩

/-- C9: with the type argument omitted, registration infers the class
from the handler's second-parameter annotation: fewer than two
parameters or a non-class annotation fail the assert, a missing
annotation raises `TypeError`, any inference failure aborts both
`add_overload` and `register` with that error, and a class annotation
becomes the registered (resp. tagged) type. -/
theorem c9_omitted_type_infers_annot (ts : TypeSystem) (g : Nat)
    (o : SDObj) (f : Handler) :
    (f.arity < 2 → get_class_from_annot f = .error .assertionError)
    ∧ (2 ≤ f.arity → f.annot = none →
        get_class_from_annot f = .error .typeError)
    ∧ (2 ≤ f.arity → f.annot = some Ann.nonClass →
        get_class_from_annot f = .error .assertionError)
    ∧ (∀ e, get_class_from_annot f = .error e →
        SDObj.add_overload_infer ts g o f = .error e
        ∧ sd_register_tag_infer o f = .error e)
    ∧ (∀ T, 2 ≤ f.arity → f.annot = some (Ann.cls T) →
        SDObj.add_overload_infer ts g o f = .ok (o.add_overload ts g T f)
        ∧ dictGet (o.add_overload ts g T f).registry T = some f
        ∧ sd_register_tag_infer o f = .ok (sd_register_tag o T f)) := by
  refine ⟨?_, ?_, ?_, ?_, ?_⟩
  · intro h
    simp [get_class_from_annot, h]
  · intro h1 h2
    simp [get_class_from_annot, Nat.not_lt.mpr h1, h2]
  · intro h1 h2
    simp [get_class_from_annot, Nat.not_lt.mpr h1, h2]
  · intro e he
    constructor
    · simp [SDObj.add_overload_infer, he]
    · simp [sd_register_tag_infer, he]
  · intro T h1 h2
    have hg : get_class_from_annot f = .ok T := by
      simp [get_class_from_annot, Nat.not_lt.mpr h1, h2]
    refine ⟨?_, ?_, ?_⟩
    · simp [SDObj.add_overload_infer, hg]
    · simp [SDObj.add_overload, dictGet_dictInsert_self]
    · simp [sd_register_tag_infer, hg]

/-- C9 (witness): the class-annotated handler registers under its
annotated type 3; the unannotated handler fails with `TypeError`. -/
theorem c9_witness :
    SDObj.add_overload_infer tsA 0 sdA hAnn = .ok (sdA.add_overload tsA 0 3 hAnn)
    ∧ get_class_from_annot hBad = .error .typeError :=
  ⟨((c9_omitted_type_infers_annot tsA 0 sdA hAnn).2.2.2.2 3 (by decide)
      (by decide)).1,
   (c9_omitted_type_infers_annot tsA 0 sdA hBad).2.1 (by decide) (by decide)⟩

theorem token_step_registry (g : Nat) (o : SDObj) :
    (o.token_step g).registry = o.registry := by
  unfold SDObj.token_step
  rcases o.cacheToken with _ | tok
  · rfl
  · by_cases h : tok == g <;> simp [h]

theorem token_step_coherent (ts : TypeSystem) (g : Nat) (o : SDObj)
    (h : coherent ts o) : coherent ts (o.token_step g) := by
  unfold SDObj.token_step
  rcases o.cacheToken with _ | tok
  · exact h
  · by_cases hif : tok == g
    · simpa [hif] using h
    · simp only [hif, Bool.false_eq_true, if_false]
      intro t v hv
      simp [dictGet] at hv

theorem dispatch_lookup_coherent (ts : TypeSystem) (o1 : SDObj) (cls : Ty)
    (h : coherent ts o1) :
    (SDObj.dispatch_lookup ts o1 cls).1 = resolve0 ts o1.registry cls
    ∧ coherent ts (SDObj.dispatch_lookup ts o1 cls).2
    ∧ (SDObj.dispatch_lookup ts o1 cls).2.registry = o1.registry := by
  rcases hc : dictGet o1.cache cls with _ | v
  · rcases hr : dictGet o1.registry cls with _ | impl
    · rcases hf : find_impl ts o1.registry cls with e | impl
      · refine ⟨?_, ?_, ?_⟩ <;>
          simp only [SDObj.dispatch_lookup, hc, hr, hf]
        · simp [resolve0, hr, hf]
        · exact h
      · refine ⟨?_, ?_, ?_⟩ <;>
          simp only [SDObj.dispatch_lookup, hc, hr, hf]
        · simp [resolve0, hr, hf]
        · intro t v hv
          by_cases ht : t == cls
          · have htc : t = cls := by simpa using ht
            subst htc
            rw [dictGet_dictInsert_self] at hv
            simp only [Option.some.injEq] at hv
            subst hv
            simp [resolve0, hr, hf]
          · rw [dictGet_dictInsert_ne _ _ _ _ (by simpa using ht)] at hv
            exact h t v hv
    · refine ⟨?_, ?_, ?_⟩ <;>
        simp only [SDObj.dispatch_lookup, hc, hr]
      · simp [resolve0, hr]
      · intro t v hv
        by_cases ht : t == cls
        · have htc : t = cls := by simpa using ht
          subst htc
          rw [dictGet_dictInsert_self] at hv
          simp only [Option.some.injEq] at hv
          subst hv
          simp [resolve0, hr]
        · rw [dictGet_dictInsert_ne _ _ _ _ (by simpa using ht)] at hv
          exact h t v hv
  · refine ⟨?_, ?_, ?_⟩ <;> simp only [SDObj.dispatch_lookup, hc]
    · exact (h cls v hc).symm
    · exact h

theorem add_overload_coherent (ts : TypeSystem) (g : Nat) (o : SDObj)
    (cls : Ty) (f : Handler) : coherent ts (o.add_overload ts g cls f) := by
  intro t v hv
  simp [SDObj.add_overload, dictGet] at hv

/-- C5: with no intervening mutation, `dispatch` on a cache-coherent
object returns exactly a fresh uncached resolution over the registry,
and leaves the object cache-coherent with the registry unchanged; after
an `add_overload` (the mutation both class-level registration and the
per-instance `register` bottom out in), the object is coherent again
(the cache was cleared) and the very next `dispatch` returns a fresh
resolution over the updated registry. -/
theorem c5_cache_coherence (ts : TypeSystem) (g g2 : Nat) (o : SDObj)
    (cls cls2 c : Ty) (f : Handler) (h : coherent ts o) :
    (o.dispatch ts g cls).1 = resolve0 ts o.registry cls
    ∧ coherent ts (o.dispatch ts g cls).2
    ∧ (o.dispatch ts g cls).2.registry = o.registry
    ∧ coherent ts (o.add_overload ts g c f)
    ∧ ((o.add_overload ts g c f).dispatch ts g2 cls2).1
        = resolve0 ts (dictInsert o.registry c f) cls2 := by
  have h1 := token_step_coherent ts g o h
  have h2 := dispatch_lookup_coherent ts (o.token_step g) cls h1
  have hreg := token_step_registry g o
  refine ⟨?_, ?_, ?_, add_overload_coherent ts g o c f, ?_⟩
  · rw [SDObj.dispatch, h2.1, hreg]
  · exact h2.2.1
  · rw [SDObj.dispatch, h2.2.2, hreg]
  · have h3 := token_step_coherent ts g2 (o.add_overload ts g c f)
      (add_overload_coherent ts g o c f)
    have h4 := dispatch_lookup_coherent ts
      ((o.add_overload ts g c f).token_step g2) cls2 h3
    rw [SDObj.dispatch, h4.1, token_step_registry]
    rfl

/-- C5 (witness): a fresh generic function is coherent, so `dispatch`
computes the uncached resolution. -/
theorem c5_witness :
    (sdA.dispatch tsA 0 3).1 = resolve0 tsA sdA.registry 3 :=
  (c5_cache_coherence tsA 0 0 sdA 3 3 2 hInt
    (fun t v hv => by simp [sdA, SDObj.init, dictGet] at hv)).1

theorem dispatchObj_fst_congr (ts : TypeSystem) (g : Nat) (w1 w2 : World)
    (i : Nat) (cls : Ty) (h : w1.objs[i]? = w2.objs[i]?) :
    (w1.dispatchObj ts g i cls).1 = (w2.dispatchObj ts g i cls).1 := by
  unfold World.dispatchObj
  rw [h]
  rcases w2.objs[i]? with _ | o <;> rfl

theorem copy_add_frame (ts : TypeSystem) (g : Nat) (w : World) (i j : Nat)
    (T : Ty) (h2 : Handler) (hi : i < w.objs.length)
    (hj : j < w.objs.length) :
    ((w.copyObj ts i).2.addOverload ts g (w.copyObj ts i).1 T h2).objs[j]?
      = w.objs[j]? := by
  obtain ⟨o, ho⟩ : ∃ o, w.objs[i]? = some o := by
    rw [List.getElem?_eq_getElem hi]
    exact ⟨_, rfl⟩
  have hfresh : (w.objs ++ [o.copy ts])[w.objs.length]? = some (o.copy ts) :=
    List.getElem?_concat_length _ _
  unfold World.copyObj World.addOverload
  simp only [ho, hfresh]
  rw [List.getElem?_set_ne (ne_of_gt hj)]
  exact List.getElem?_append_left hj

/-- C2: registering an overload (any type, any handler) on the clone of
a base class's generic function — the clone being what class
construction installs on the subclass — leaves the base object wholly
unchanged: same heap entry, so `get_registered_types()` and the result
of `dispatch(t)` for every `t` are what they were before. -/
theorem c2_subclass_independence (ts : TypeSystem) (g : Nat) (w : World)
    (b : Nat) (T t : Ty) (h2 : Handler) (hb : b < w.objs.length) :
    ((w.copyObj ts b).2.addOverload ts g (w.copyObj ts b).1 T h2).objs[b]?
      = w.objs[b]?
    ∧ ((w.copyObj ts b).2.addOverload ts g (w.copyObj ts b).1 T
        h2).registeredTypes ts b = w.registeredTypes ts b
    ∧ (((w.copyObj ts b).2.addOverload ts g (w.copyObj ts b).1 T
        h2).dispatchObj ts g b t).1 = (w.dispatchObj ts g b t).1 := by
  have hframe := copy_add_frame ts g w b b T h2 hb hb
  exact ⟨hframe, by unfold World.registeredTypes; rw [hframe],
    dispatchObj_fst_congr ts g _ w b t hframe⟩

/-- C2 (witness). -/
theorem c2_witness :
    ((wA.copyObj tsA 0).2.addOverload tsA 0 (wA.copyObj tsA 0).1 2 hInt).objs[0]?
      = wA.objs[0]? :=
  (c2_subclass_independence tsA 0 wA 0 2 3 hInt (by decide)).1

/-- C3: a first per-instance registration on instance `a` of class `C`
(overlay slot empty, so `BoundSDMethod.register` clones the class-level
object `c` into a fresh private slot and registers there) leaves the
class-level object unchanged and leaves the dispatch result of any
sibling instance `b` — whether `b` shares the class object or carries
its own pre-existing overlay — unchanged for every argument type. -/
theorem c3_instance_isolation (ts : TypeSystem) (g : Nat) (w : World)
    (c : Nat) (T t : Ty) (h2 : Handler) (bo : Option Nat)
    (hc : c < w.objs.length) (hbo : bo.getD c < w.objs.length) :
    (bound_register ts g c none T h2 w).2.objs[c]? = w.objs[c]?
    ∧ (bound_dispatch ts g c bo t (bound_register ts g c none T h2 w).2).1
        = (bound_dispatch ts g c bo t w).1 := by
  have hframe1 := copy_add_frame ts g w c c T h2 hc hc
  have hframe2 := copy_add_frame ts g w c (bo.getD c) T h2 hc hbo
  exact ⟨hframe1, dispatchObj_fst_congr ts g _ w (bo.getD c) t hframe2⟩

/-- C3 (witness). -/
theorem c3_witness :
    (bound_register tsA 0 0 none 2 hInt wA).2.objs[0]? = wA.objs[0]? :=
  (c3_instance_isolation tsA 0 wA 0 2 3 hInt none (by decide) (by decide)).1

theorem find_scan_some_cons (registered inNominal : Ty → Bool)
    (issub : Ty → Ty → Bool) (t : Ty) (rest : List Ty) (m : Ty) :
    find_scan registered inNominal issub (t :: rest) (some m) =
      if registered t && !inNominal t && !inNominal m && !issub m t then
        .error .runtimeError
      else .ok (some m) := rfl

theorem find_scan_only_runtime (registered inNominal : Ty → Bool)
    (issub : Ty → Ty → Bool) (l : List Ty) (acc : Option Ty) (e : PyErr)
    (h : find_scan registered inNominal issub l acc = .error e) :
    e = .runtimeError := by
  induction l generalizing acc with
  | nil => simp [find_scan] at h
  | cons t rest ih =>
      rcases acc with _ | m
      · simp only [find_scan] at h
        exact ih _ h
      · rw [find_scan_some_cons] at h
        by_cases hcond :
            (registered t && !inNominal t && !inNominal m && !issub m t)
        · rw [if_pos hcond] at h
          exact (Except.error.inj h).symm
        · rw [if_neg hcond] at h
          exact absurd h (by simp)

theorem find_scan_none_ok (registered inNominal : Ty → Bool)
    (issub : Ty → Ty → Bool) (l : List Ty)
    (h : find_scan registered inNominal issub l none ≠ .error .runtimeError) :
    find_scan registered inNominal issub l none = .ok (l.find? registered) := by
  induction l with
  | nil => rfl
  | cons t rest ih =>
      by_cases hr : registered t
      · have hdef : find_scan registered inNominal issub (t :: rest) none
            = find_scan registered inNominal issub rest (some t) := by
          simp [find_scan, hr]
        rw [hdef] at h ⊢
        cases rest with
        | nil => simp [find_scan, List.find?, hr]
        | cons u rest2 =>
            rw [find_scan_some_cons] at h ⊢
            by_cases hcond :
                (registered u && !inNominal u && !inNominal t && !issub t u)
            · rw [if_pos hcond] at h
              exact absurd rfl h
            · rw [if_neg hcond]
              simp [List.find?, hr]
      · have hdef : find_scan registered inNominal issub (t :: rest) none
            = find_scan registered inNominal issub rest none := by
          simp [find_scan, hr]
        rw [hdef] at h ⊢
        rw [ih h]
        simp [List.find?, hr]

theorem find_scan_none_error_iff (registered inNominal : Ty → Bool)
    (issub : Ty → Ty → Bool) (l : List Ty) :
    find_scan registered inNominal issub l none = .error .runtimeError
      ↔ ambig_pattern registered inNominal issub l := by
  induction l with
  | nil =>
      constructor
      · intro h
        simp [find_scan] at h
      · rintro ⟨pre, M, t2, rest, heq, -, -, -, -, -, -⟩
        exact absurd heq (by cases pre <;> simp)
  | cons a l ih =>
      by_cases ha : registered a
      · have hdef : find_scan registered inNominal issub (a :: l) none
            = find_scan registered inNominal issub l (some a) := by
          simp [find_scan, ha]
        rw [hdef]
        cases l with
        | nil =>
            constructor
            · intro h
              simp [find_scan] at h
            · rintro ⟨pre, M, t2, rest, heq, -, -, -, -, -, -⟩
              have : ([a] : List Ty).length =
                  (pre ++ M :: t2 :: rest).length := by rw [heq]
              simp [List.length_append] at this
              omega
        | cons u l2 =>
            rw [find_scan_some_cons]
            constructor
            · intro h
              by_cases hcond :
                  (registered u && !inNominal u && !inNominal a && !issub a u)
              · simp only [Bool.and_eq_true, Bool.not_eq_true',
                  Bool.not_eq_true] at hcond
                obtain ⟨⟨⟨hu, hnu⟩, hna⟩, hsu⟩ := hcond
                exact ⟨[], a, u, l2, rfl, by simp, ha, hu, hna, hnu, hsu⟩
              · rw [if_neg hcond] at h
                simp at h
            · rintro ⟨pre, M, t2, rest, heq, hpre, hM, ht, hnM, hnt, hsub⟩
              cases pre with
              | nil =>
                  simp only [List.nil_append, List.cons.injEq] at heq
                  obtain ⟨h1, h2, -⟩ := heq
                  subst h1
                  subst h2
                  rw [if_pos (by simp [ht, hnt, hnM, hsub])]
              | cons p pre2 =>
                  simp only [List.cons_append, List.cons.injEq] at heq
                  obtain ⟨h1, -⟩ := heq
                  subst h1
                  exact absurd ha (by simp [hpre a (by simp)])
      · have hdef : find_scan registered inNominal issub (a :: l) none
            = find_scan registered inNominal issub l none := by
          simp [find_scan, ha]
        rw [hdef, ih]
        constructor
        · rintro ⟨pre, M, t2, rest, heq, hpre, hM, ht, hnM, hnt, hsub⟩
          refine ⟨a :: pre, M, t2, rest, by rw [heq, List.cons_append],
            ?_, hM, ht, hnM, hnt, hsub⟩
          intro x hx
          rcases List.mem_cons.mp hx with hxa | hxp
          · subst hxa
            simpa using ha
          · exact hpre x hxp
        · rintro ⟨pre, M, t2, rest, heq, hpre, hM, ht, hnM, hnt, hsub⟩
          cases pre with
          | nil =>
              simp only [List.nil_append, List.cons.injEq] at heq
              obtain ⟨h1, -⟩ := heq
              subst h1
              exact absurd hM (by simpa using ha)
          | cons p pre2 =>
              simp only [List.cons_append, List.cons.injEq] at heq
              obtain ⟨-, h2⟩ := heq
              exact ⟨pre2, M, t2, rest, h2,
                fun x hx => hpre x (by simp [hx]), hM, ht, hnM, hnt, hsub⟩

/-- C1: `_find_impl` raises the ambiguous-dispatch `RuntimeError` iff
the composed precedence order starts (after unregistered entries) with
a registered match `M` immediately followed by another registered entry
`t`, with neither on the nominal MRO of the dispatched class and `M`
not a subclass of `t`; in every other case the first registered type of
the composed order supplies the handler.  On a cache miss with no
direct registry hit, `dispatch` returns exactly what `_find_impl`
returns (so it propagates the ambiguity error). -/
theorem c1_ambiguous_dispatch (ts : TypeSystem)
    (registry : List (Ty × Handler)) (cls : Ty) :
    (find_impl ts registry cls = .error .runtimeError
      ↔ ambig_pattern (fun t => (dictGet registry t).isSome)
          (fun t => (ts.nominalMro cls).contains t) ts.issub
          (ts.composeMro cls (registry.map Prod.fst)))
    ∧ (find_impl ts registry cls ≠ .error .runtimeError →
        find_impl ts registry cls =
          .ok (((ts.composeMro cls (registry.map Prod.fst)).find?
                  (fun t => (dictGet registry t).isSome)).bind
                (fun t => dictGet registry t)))
    ∧ (∀ (o : SDObj) (g : Nat), o.registry = registry → o.cache = [] →
        dictGet registry cls = none →
        (o.dispatch ts g cls).1 = find_impl ts registry cls) := by
  refine ⟨?_, ?_, ?_⟩
  · rcases hscan : find_scan (fun t => (dictGet registry t).isSome)
        (fun t => (ts.nominalMro cls).contains t) ts.issub
        (ts.composeMro cls (registry.map Prod.fst)) none with e | m
    · have he := find_scan_only_runtime _ _ _ _ _ _ hscan
      subst he
      constructor
      · intro _
        exact (find_scan_none_error_iff _ _ _ _).mp hscan
      · intro _
        simp only [find_impl]
        rw [hscan]
    · constructor
      · intro h
        simp only [find_impl] at h
        rw [hscan] at h
        exact absurd h (by simp)
      · intro hpat
        have := (find_scan_none_error_iff _ _ _ _).mpr hpat
        rw [hscan] at this
        exact absurd this (by simp)
  · intro h
    have hne : find_scan (fun t => (dictGet registry t).isSome)
        (fun t => (ts.nominalMro cls).contains t) ts.issub
        (ts.composeMro cls (registry.map Prod.fst)) none
        ≠ .error .runtimeError := by
      intro hcon
      apply h
      simp only [find_impl]
      rw [hcon]
    have hok := find_scan_none_ok _ _ _ _ hne
    simp only [find_impl]
    rw [hok]
  · intro o g ho hcache hmiss
    have hts_cache : (o.token_step g).cache = [] := by
      unfold SDObj.token_step
      rcases o.cacheToken with _ | tok
      · exact hcache
      · by_cases hif : tok == g <;> simp [hif, hcache]
    have hts_reg : (o.token_step g).registry = registry := by
      rw [token_step_registry, ho]
    simp only [SDObj.dispatch, SDObj.dispatch_lookup, hts_cache,
      dictGet_nil, hts_reg, hmiss]
    rcases hf : find_impl ts registry cls with e | impl <;> simp [hf]

/-- C1 (witness): with registry keys {object, 1, 2} and composed order
[5, 1, 2, 0] for class 5, entries 1 and 2 are both registered, neither
is on 5's nominal MRO, and 1 is not a subclass of 2, so resolution
raises the ambiguity error. -/
theorem c1_witness : find_impl tsA regA 5 = .error .runtimeError :=
  (c1_ambiguous_dispatch tsA regA 5).1.mpr
    ⟨[5], 1, 2, [0], by decide, by decide, by decide, by decide, by decide,
      by decide, by decide⟩

theorem get_class_from_annot_no_rt (f : Handler) (e : PyErr)
    (h : get_class_from_annot f = .error e) : e ≠ .runtimeError := by
  unfold get_class_from_annot at h
  split at h
  · simp only [Except.error.injEq] at h
    subst h
    simp
  · split at h
    · simp only [Except.error.injEq] at h
      subst h
      simp
    · exact absurd h (by simp)
    · simp only [Except.error.injEq] at h
      subst h
      simp

theorem apply_tags_no_rt (ts : TypeSystem) (g : Nat)
    (dict : List (String × AttrVal)) (h2 : Handler)
    (tags : List (String × Option Ty)) (w : World) :
    apply_tags ts g dict h2 tags w ≠ .error .runtimeError := by
  induction tags generalizing w with
  | nil => simp [apply_tags]
  | cons p rest ih =>
      obtain ⟨gname, cls?⟩ := p
      unfold apply_tags
      split
      · split
        · exact ih _
        · split
          · exact ih _
          · rename_i heq
            intro hc
            simp only [Except.error.injEq] at hc
            exact get_class_from_annot_no_rt h2 _ heq hc
      · simp
      · simp

theorem fixup_attrs_no_rt (ts : TypeSystem) (g : Nat)
    (dict : List (String × AttrVal)) (gens : List Nat)
    (entries : List (String × AttrVal)) (w : World) :
    fixup_attrs ts g dict gens entries w ≠ .error .runtimeError := by
  induction entries generalizing w with
  | nil => simp [fixup_attrs]
  | cons p rest ih =>
      obtain ⟨name, v⟩ := p
      cases v with
      | plain => simpa only [fixup_attrs] using ih _
      | sd i => simpa only [fixup_attrs] using ih _
      | fn h2 =>
          simp only [fixup_attrs]
          split
          · exact ih _
          · split
            · exact ih _
            · rename_i heq
              intro hc
              simp only [Except.error.injEq] at hc
              subst hc
              exact apply_tags_no_rt ts g dict h2 h2.overloads _ heq

theorem beq_symm_false {κ : Type} [BEq κ] [LawfulBEq κ] (a b : κ)
    (h : (a == b) = false) : (b == a) = false := by
  rw [beq_eq_false_iff_ne] at h ⊢
  exact fun e => h e.symm

theorem dictGet_append {κ α : Type} [BEq κ] (d1 d2 : List (κ × α)) (k : κ) :
    dictGet (d1 ++ d2) k = (dictGet d1 k).or (dictGet d2 k) := by
  unfold dictGet
  rw [List.find?_append]
  cases List.find? (fun p => p.1 == k) d1 <;> simp

theorem dictGet_singleton {κ α : Type} [BEq κ] (k0 k : κ) (v : α) :
    dictGet [(k0, v)] k = if k0 == k then some v else none := by
  by_cases h : k0 == k <;> simp [dictGet, List.find?, h]

theorem fixup_patch_error_iff (ts : TypeSystem)
    (entries : List (String × AttrVal)) (patched : List String)
    (dict : List (String × AttrVal)) (gens : List Nat) (w : World) :
    fixup_patch ts entries patched dict gens w = .error .runtimeError
      ↔ ∃ p ∈ entries, (∃ i, p.2 = AttrVal.sd i)
          ∧ patched.contains p.1 = false
          ∧ (dictGet dict p.1).isSome = true := by
  induction entries generalizing patched dict gens w with
  | nil => simp [fixup_patch]
  | cons p rest ih =>
      obtain ⟨name, v⟩ := p
      cases v with
      | plain =>
          simp only [fixup_patch]
          rw [ih]
          constructor
          · rintro ⟨q, hq, hsd, hc, hd⟩
            exact ⟨q, List.mem_cons_of_mem _ hq, hsd, hc, hd⟩
          · rintro ⟨q, hq, hsd, hc, hd⟩
            rcases List.mem_cons.mp hq with rfl | hq2
            · rcases hsd with ⟨j, hj⟩
              cases hj
            · exact ⟨q, hq2, hsd, hc, hd⟩
      | fn h2 =>
          simp only [fixup_patch]
          rw [ih]
          constructor
          · rintro ⟨q, hq, hsd, hc, hd⟩
            exact ⟨q, List.mem_cons_of_mem _ hq, hsd, hc, hd⟩
          · rintro ⟨q, hq, hsd, hc, hd⟩
            rcases List.mem_cons.mp hq with rfl | hq2
            · rcases hsd with ⟨j, hj⟩
              cases hj
            · exact ⟨q, hq2, hsd, hc, hd⟩
      | sd i =>
          by_cases hp : patched.contains name
          · simp only [fixup_patch, hp, if_true]
            rw [ih]
            constructor
            · rintro ⟨q, hq, hsd, hc, hd⟩
              exact ⟨q, List.mem_cons_of_mem _ hq, hsd, hc, hd⟩
            · rintro ⟨q, hq, hsd, hc, hd⟩
              rcases List.mem_cons.mp hq with rfl | hq2
              · rw [hp] at hc
                cases hc
              · exact ⟨q, hq2, hsd, hc, hd⟩
          · by_cases hd : (dictGet dict name).isSome
            · constructor
              · intro _
                exact ⟨(name, AttrVal.sd i), List.mem_cons_self _ _,
                  ⟨i, rfl⟩, by simpa using hp, hd⟩
              · intro _
                simp only [fixup_patch]
                rw [if_neg (by simpa using hp), if_pos hd]
            · have hstep :
                  fixup_patch ts ((name, AttrVal.sd i) :: rest) patched dict
                    gens w
                  = fixup_patch ts rest (name :: patched)
                      (dict ++ [(name, AttrVal.sd (w.copyObj ts i).1)])
                      (gens ++ [(w.copyObj ts i).1]) (w.copyObj ts i).2 := by
                simp only [fixup_patch]
                rw [if_neg (by simpa using hp), if_neg (by simpa using hd)]
              rw [hstep, ih]
              constructor
              · rintro ⟨q, hq, hsd, hc, hdq⟩
                simp only [List.contains_cons, Bool.or_eq_false_iff] at hc
                obtain ⟨hqn, hcp⟩ := hc
                rw [dictGet_append, dictGet_singleton,
                  beq_symm_false _ _ hqn] at hdq
                simp only [if_false, Bool.false_eq_true, Option.or_none] at hdq
                exact ⟨q, List.mem_cons_of_mem _ hq, hsd, hcp, hdq⟩
              · rintro ⟨q, hq, hsd, hcp, hdq⟩
                rcases List.mem_cons.mp hq with rfl | hq2
                · rw [hdq] at hd
                  cases hd rfl
                · by_cases hqn : (q.1 == name)
                  · have hqe : q.1 = name := by simpa using hqn
                    exact absurd (hqe ▸ hdq) hd
                  · refine ⟨q, hq2, hsd, ?_, ?_⟩
                    · simp only [List.contains_cons, Bool.or_eq_false_iff]
                      exact ⟨by simpa using hqn, hcp⟩
                    · rw [dictGet_append, dictGet_singleton,
                        beq_symm_false _ _ (by simpa using hqn)]
                      simp only [if_false, Bool.false_eq_true, Option.or_none]
                      exact hdq

/-- C4 (amended): class construction fails with the structural
`RuntimeError` iff the new class body declares an attribute — of any
kind, whether or not it is marked as a registration — whose name equals
the name of a `singledispatch` attribute of one of the SingleDispatch
bases; the check is purely name-based. -/
theorem c4_override_rejection_iff (ts : TypeSystem) (g : Nat)
    (attrs baseEntries : List (String × AttrVal)) (w : World) :
    fixup_class ts g attrs baseEntries w = .error .runtimeError
      ↔ name_clash attrs baseEntries := by
  unfold fixup_class name_clash
  constructor
  · intro h
    split at h
    · rename_i e heq
      simp only [Except.error.injEq] at h
      subst h
      obtain ⟨p, hp, hsd, -, hd⟩ :=
        (fixup_patch_error_iff ts baseEntries [] attrs [] w).mp heq
      exact ⟨p, hp, hsd, hd⟩
    · rename_i dict gens w1 heq
      split at h
      · rename_i e2 heq2
        simp only [Except.error.injEq] at h
        subst h
        exact absurd heq2 (fixup_attrs_no_rt ts g dict gens dict w1)
      · exact absurd h (by simp)
  · intro hclash
    have herr := (fixup_patch_error_iff ts baseEntries [] attrs [] w).mpr
      (by
        obtain ⟨p, hp, hsd, hd⟩ := hclash
        exact ⟨p, hp, hsd, rfl, hd⟩)
    rw [herr]

/-- C4 (counterexample): a subclass attribute that *is* marked as a
registration (it carries an `_overloads` tag) and shares the name of
the inherited generic function still makes class construction raise the
structural `RuntimeError`, contradicting the claim that marked
same-named attributes are accepted. -/
theorem c4_marked_same_name_still_fails :
    (Handler.mk 105 "foo" 2 none [("foo", some 1)]).overloads ≠ []
    ∧ fixup_class tsA 0
        [("foo", AttrVal.fn (Handler.mk 105 "foo" 2 none [("foo", some 1)]))]
        [("foo", AttrVal.sd 0)] wA = .error .runtimeError := by
  constructor
  · decide
  · rfl

theorem dispatch_after_add (ts : TypeSystem) (g g2 : Nat) (o : SDObj)
    (cls : Ty) (f : Handler) :
    ((o.add_overload ts g cls f).dispatch ts g2 cls).1 = .ok (some f) := by
  have hcache : ((o.add_overload ts g cls f).token_step g2).cache = [] := by
    unfold SDObj.token_step
    rcases hct : (o.add_overload ts g cls f).cacheToken with _ | tok
    · rfl
    · by_cases hif : tok == g2 <;> simp [hif, SDObj.add_overload]
  have hreg : ((o.add_overload ts g cls f).token_step g2).registry
      = dictInsert o.registry cls f := by
    rw [token_step_registry]
    rfl
  simp only [SDObj.dispatch, SDObj.dispatch_lookup, hcache, dictGet_nil,
    hreg, dictGet_dictInsert_self]

theorem lt_length_of_getElem?_some {α : Type} (l : List α) (i : Nat) (a : α)
    (h : l[i]? = some a) : i < l.length := by
  obtain ⟨hlt, -⟩ := List.getElem?_eq_some_iff.mp h
  exact hlt

/-- C8: a subclass whose body declares a callable `h2` under name `n`,
with no overload declarations, where `n` equals the `__name__` of a
handler in the inherited generic's cloned registry (first such entry
`(T, f2)` in registry order), constructs successfully; the clone (at
the fresh heap index) ends up with `h2` registered for `T`, so the
subclass's dispatch for `T` now returns `h2`, while the base object is
untouched. -/
theorem c8_override_by_name (ts : TypeSystem) (g : Nat) (w : World)
    (i : Nat) (o : SDObj) (n gname : String) (h2 f2 : Handler) (T : Ty)
    (hng : (n == gname) = false)
    (ho : w.objs[i]? = some o)
    (hov : h2.overloads = [])
    (hfind : (o.copy ts).registry.find? (fun p => p.2.hname == n)
        = some (T, f2)) :
    ∃ w2, fixup_class ts g [(n, AttrVal.fn h2)] [(gname, AttrVal.sd i)] w
        = .ok ([(n, AttrVal.fn h2), (gname, AttrVal.sd w.objs.length)],
               [w.objs.length], w2)
      ∧ (w2.objs[w.objs.length]?).map (fun ob => dictGet ob.registry T)
          = some (some h2)
      ∧ (w2.dispatchObj ts g w.objs.length T).1 = .ok (some h2)
      ∧ w2.objs[i]? = some o := by
  have hi : i < w.objs.length := lt_length_of_getElem?_some _ _ _ ho
  have hcopy : w.copyObj ts i = (w.objs.length, ⟨w.objs ++ [o.copy ts]⟩) := by
    unfold World.copyObj
    rw [ho]
  have hpatch : fixup_patch ts [(gname, AttrVal.sd i)] []
      [(n, AttrVal.fn h2)] [] w
      = .ok ([(n, AttrVal.fn h2), (gname, AttrVal.sd w.objs.length)],
             [w.objs.length], ⟨w.objs ++ [o.copy ts]⟩) := by
    have hdg : dictGet [(n, AttrVal.fn h2)] gname = none := by
      rw [dictGet_singleton, if_neg]
      simp [hng]
    simp only [fixup_patch]
    rw [if_neg (by simp), if_neg (by simp [hdg]), hcopy]
    rfl
  have hw1objs : (World.mk (w.objs ++ [o.copy ts])).objs[w.objs.length]?
      = some (o.copy ts) := List.getElem?_concat_length _ _
  have hover : apply_overrides ts g n h2 [w.objs.length]
      ⟨w.objs ++ [o.copy ts]⟩
      = ⟨(w.objs ++ [o.copy ts]).set w.objs.length
          ((o.copy ts).add_overload ts g T h2)⟩ := by
    simp only [apply_overrides, hw1objs, hfind, World.addOverload,
      hw1objs]
  have hattrs : fixup_attrs ts g
      [(n, AttrVal.fn h2), (gname, AttrVal.sd w.objs.length)]
      [w.objs.length]
      [(n, AttrVal.fn h2), (gname, AttrVal.sd w.objs.length)]
      ⟨w.objs ++ [o.copy ts]⟩
      = .ok ⟨(w.objs ++ [o.copy ts]).set w.objs.length
          ((o.copy ts).add_overload ts g T h2)⟩ := by
    simp only [fixup_attrs, hov, List.isEmpty_nil, if_true, hover]
  refine ⟨⟨(w.objs ++ [o.copy ts]).set w.objs.length
      ((o.copy ts).add_overload ts g T h2)⟩, ?_, ?_, ?_, ?_⟩
  · unfold fixup_class
    rw [hpatch]
    simp [hattrs]
  · have hset : ((w.objs ++ [o.copy ts]).set w.objs.length
        ((o.copy ts).add_overload ts g T h2))[w.objs.length]?
        = some ((o.copy ts).add_overload ts g T h2) := by
      apply List.getElem?_set_self
      simp
    simp only [hset, Option.map_some']
    rw [show (SDObj.add_overload ts g (SDObj.copy ts o) T h2).registry
        = dictInsert (SDObj.copy ts o).registry T h2 from rfl,
      dictGet_dictInsert_self]
  · have hset : ((w.objs ++ [o.copy ts]).set w.objs.length
        ((o.copy ts).add_overload ts g T h2))[w.objs.length]?
        = some ((o.copy ts).add_overload ts g T h2) := by
      apply List.getElem?_set_self
      simp
    unfold World.dispatchObj
    simp only [hset]
    exact dispatch_after_add ts g g (o.copy ts) T h2
  · rw [show (World.mk ((w.objs ++ [o.copy ts]).set w.objs.length
        ((o.copy ts).add_overload ts g T h2))).objs
        = (w.objs ++ [o.copy ts]).set w.objs.length
          ((o.copy ts).add_overload ts g T h2) from rfl]
    rw [List.getElem?_set_ne (ne_of_gt hi), List.getElem?_append_left hi]
    exact ho

/-- C8 (witness): subclassing the fixture class with a body declaring
`foo_int`-free callable `hInt` under the name "foo" — the `__name__` of
the inherited default handler registered for `object` (type 0) —
overrides the `object` entry of the clone. -/
theorem c8_witness :
    ∃ w2, fixup_class tsA 0 [("foo", AttrVal.fn hInt)]
        [("bar", AttrVal.sd 0)] wA
        = .ok ([("foo", AttrVal.fn hInt), ("bar", AttrVal.sd wA.objs.length)],
               [wA.objs.length], w2)
      ∧ (w2.objs[wA.objs.length]?).map (fun ob => dictGet ob.registry 0)
          = some (some hInt)
      ∧ (w2.dispatchObj tsA 0 wA.objs.length 0).1 = .ok (some hInt)
      ∧ w2.objs[0]? = some sdA :=
  c8_override_by_name tsA 0 wA 0 sdA "foo" "bar" hInt hDefault 0
    (by decide) (by decide) (by decide) (by decide)

/-- C10: `register` (reached directly on the `singledispatch` object or
through class-level unbound access, which merely delegates) leaves the
heap — hence every registry and every dispatch result — untouched; it
only returns the handler tagged with `(generic __name__, type)`; the
registration then takes effect when a later subclass construction
processes the tag: the tagged handler lands in the subclass *clone's*
registry under the tagged type, while the original object still never
changes. -/
theorem c10_register_tags_only (ts : TypeSystem) (g : Nat) (w : World)
    (i : Nat) (o : SDObj) (n gname : String) (f : Handler) (T t : Ty)
    (ho : w.objs[i]? = some o)
    (hfn : o.func.hname = gname)
    (hng : (n == gname) = false)
    (hov : f.overloads = []) :
    (w.registerOn i T f) = (sd_register_tag o T f, w)
    ∧ (sd_register_tag o T f).overloads = [(gname, some T)]
    ∧ ((w.registerOn i T f).2.dispatchObj ts g i t).1
        = (w.dispatchObj ts g i t).1
    ∧ (w.registerOn i T f).2.objs[i]? = some o
    ∧ ∃ w2, fixup_class ts g [(n, AttrVal.fn (sd_register_tag o T f))]
          [(gname, AttrVal.sd i)] w
        = .ok ([(n, AttrVal.fn (sd_register_tag o T f)),
                (gname, AttrVal.sd w.objs.length)], [w.objs.length], w2)
      ∧ (w2.objs[w.objs.length]?).map (fun ob => dictGet ob.registry T)
          = some (some (sd_register_tag o T f))
      ∧ w2.objs[i]? = some o := by
  have hi : i < w.objs.length := lt_length_of_getElem?_some _ _ _ ho
  have hro : w.registerOn i T f = (sd_register_tag o T f, w) := by
    unfold World.registerOn
    rw [ho]
  have htag_ov : (sd_register_tag o T f).overloads = [(gname, some T)] := by
    simp [sd_register_tag, hov, hfn]
  have hcopy : w.copyObj ts i = (w.objs.length, ⟨w.objs ++ [o.copy ts]⟩) := by
    unfold World.copyObj
    rw [ho]
  have hpatch : fixup_patch ts [(gname, AttrVal.sd i)] []
      [(n, AttrVal.fn (sd_register_tag o T f))] [] w
      = .ok ([(n, AttrVal.fn (sd_register_tag o T f)),
              (gname, AttrVal.sd w.objs.length)],
             [w.objs.length], ⟨w.objs ++ [o.copy ts]⟩) := by
    have hdg : dictGet [(n, AttrVal.fn (sd_register_tag o T f))] gname
        = none := by
      rw [dictGet_singleton, if_neg]
      simp [hng]
    simp only [fixup_patch]
    rw [if_neg (by simp), if_neg (by simp [hdg]), hcopy]
    rfl
  have hw1objs : (World.mk (w.objs ++ [o.copy ts])).objs[w.objs.length]?
      = some (o.copy ts) := List.getElem?_concat_length _ _
  have hdg1 : dictGet [(n, AttrVal.fn (sd_register_tag o T f)),
      (gname, AttrVal.sd w.objs.length)] gname
      = some (AttrVal.sd w.objs.length) := by
    simp [dictGet, List.find?, hng]
  have htags : apply_tags ts g
      [(n, AttrVal.fn (sd_register_tag o T f)),
       (gname, AttrVal.sd w.objs.length)]
      (sd_register_tag o T f) [(gname, some T)] ⟨w.objs ++ [o.copy ts]⟩
      = .ok ⟨(w.objs ++ [o.copy ts]).set w.objs.length
          ((o.copy ts).add_overload ts g T (sd_register_tag o T f))⟩ := by
    simp only [apply_tags, hdg1, World.addOverload, hw1objs]
  have hattrs : fixup_attrs ts g
      [(n, AttrVal.fn (sd_register_tag o T f)),
       (gname, AttrVal.sd w.objs.length)]
      [w.objs.length]
      [(n, AttrVal.fn (sd_register_tag o T f)),
       (gname, AttrVal.sd w.objs.length)]
      ⟨w.objs ++ [o.copy ts]⟩
      = .ok ⟨(w.objs ++ [o.copy ts]).set w.objs.length
          ((o.copy ts).add_overload ts g T (sd_register_tag o T f))⟩ := by
    simp only [fixup_attrs, htag_ov]
    rw [if_neg (by simp)]
    rw [htags]
  refine ⟨hro, htag_ov, by rw [hro], by rw [hro]; exact ho,
    ⟨(w.objs ++ [o.copy ts]).set w.objs.length
      ((o.copy ts).add_overload ts g T (sd_register_tag o T f))⟩,
    ?_, ?_, ?_⟩
  · unfold fixup_class
    rw [hpatch]
    simp [hattrs]
  · have hset : ((w.objs ++ [o.copy ts]).set w.objs.length
        ((o.copy ts).add_overload ts g T (sd_register_tag o T f)))[w.objs.length]?
        = some ((o.copy ts).add_overload ts g T (sd_register_tag o T f)) := by
      apply List.getElem?_set_self
      simp
    simp only [hset, Option.map_some']
    rw [show (SDObj.add_overload ts g (SDObj.copy ts o) T
        (sd_register_tag o T f)).registry
        = dictInsert (SDObj.copy ts o).registry T (sd_register_tag o T f)
        from rfl,
      dictGet_dictInsert_self]
  · rw [show (World.mk ((w.objs ++ [o.copy ts]).set w.objs.length
        ((o.copy ts).add_overload ts g T (sd_register_tag o T f)))).objs
        = (w.objs ++ [o.copy ts]).set w.objs.length
          ((o.copy ts).add_overload ts g T (sd_register_tag o T f))
        from rfl]
    rw [List.getElem?_set_ne (ne_of_gt hi), List.getElem?_append_left hi]
    exact ho

/-- C10 (witness). -/
theorem c10_witness :
    (wA.registerOn 0 2 hBad) = (sd_register_tag sdA 2 hBad, wA)
    ∧ (sd_register_tag sdA 2 hBad).overloads = [("foo", some 2)] :=
  ⟨(c10_register_tags_only tsA 0 wA 0 sdA "baz" "foo" hBad 2 3
      (by decide) (by decide) (by decide) (by decide)).1,
   (c10_register_tags_only tsA 0 wA 0 sdA "baz" "foo" hBad 2 3
      (by decide) (by decide) (by decide) (by decide)).2.1⟩
